import Mathlib

/-
Shallow embedding of the LiquiFlow agent server (src/agent/server.js).

Conventions of the embedding:
- JS BigInt values are Lean Int; JS BigInt division truncates toward zero,
  which is Int.tdiv.
- JS string keys (addresses) are Lean String; JS toLowerCase on the ASCII
  addresses used here is modelled by jsToLower below.
- The insertion-ordered JS Map in calculateRewards is an association list
  with in-place update semantics (mapSet).
- The data object (events, claimed, claims) is ServerData; the claimed
  object is an association list with the JS default of the string 0 for a
  missing key (ledgerGet).
- External effects of the claim endpoint (current time, treasury balanceOf,
  generated claim id, burn transaction, extracted MessageSent bytes,
  attestation polling responses) are inputs packaged in ClaimOracle; the
  on-chain transactions the handler submits are returned as a ChainAction
  list in submission order.
- Display-only fields computed with JS floating point (amountUSDC and the
  like) are outside the embedding; no claim depends on them.
-/

/-- ASCII lower-casing of one character, as JS toLowerCase acts on the
hex-address strings this server handles. -/
def lowerChar (c : Char) : Char :=
  if 65 ≤ c.toNat ∧ c.toNat ≤ 90 then Char.ofNat (c.toNat + 32) else c

/-- Model of the JS String.prototype.toLowerCase call on ASCII strings. -/
def jsToLower (s : String) : String :=
  String.mk (s.data.map lowerChar)

/-- One entry of data.events, as appended by handleEvent in server.js.
Fields not read by any of the verified code paths (poolId, chainId, txHash,
blockNumber) are omitted. -/
structure LiquidityEvent where
  type : String
  chain : String
  provider : String
  liquidityDelta : Int
  timestamp : Int
deriving DecidableEq

/-- The per-provider accumulator of the positions Map built by
calculateRewards (server.js lines 102-118). -/
structure Position where
  liquidity : Int
  lastUpdate : Int
  chain : String
  provider : String
deriving DecidableEq

/-- Lookup in an insertion-ordered association list (JS Map.get /
object property read). -/
def mapGet {α : Type} (m : List (String × α)) (k : String) : Option α :=
  match m with
  | [] => none
  | (k2, v) :: rest => if k2 = k then some v else mapGet rest k

/-- Update in an insertion-ordered association list (JS Map.set / object
property write): an existing key is overwritten in place, a new key is
appended at the end. -/
def mapSet {α : Type} (m : List (String × α)) (k : String) (v : α) :
    List (String × α) :=
  match m with
  | [] => [(k, v)]
  | (k2, v2) :: rest =>
      if k2 = k then (k, v) :: rest else (k2, v2) :: mapSet rest k v

/-- One iteration of the event loop of calculateRewards (server.js lines
103-118): only a LiquidityAdded event touches the positions map; the
object spread keeps the stored lastUpdate, so the anchor stays at the
timestamp the entry was created with. -/
def stepEvent (positions : List (String × Position)) (e : LiquidityEvent) :
    List (String × Position) :=
  if e.type = "LiquidityAdded" then
    let key := jsToLower e.provider
    let existing := (mapGet positions key).getD
      { liquidity := 0, lastUpdate := e.timestamp,
        chain := e.chain, provider := e.provider }
    mapSet positions key
      { existing with liquidity := existing.liquidity + e.liquidityDelta }
  else positions

/-- The positions map calculateRewards builds from the full event log. -/
def buildPositions (events : List LiquidityEvent) : List (String × Position) :=
  events.foldl stepEvent []

/-- One entry of the posData array of calculateRewards (server.js lines
124-129): the position together with its liquidityTime and map key. -/
structure PosData where
  liquidity : Int
  lastUpdate : Int
  chain : String
  provider : String
  liquidityTime : Int
  address : String
deriving DecidableEq

/-- The posData array (server.js lines 124-129): timeHeld is now minus the
stored anchor, liquidityTime is liquidity times timeHeld. -/
def posData (positions : List (String × Position)) (now : Int) : List PosData :=
  positions.map (fun kp =>
    { liquidity := kp.2.liquidity, lastUpdate := kp.2.lastUpdate,
      chain := kp.2.chain, provider := kp.2.provider,
      liquidityTime := kp.2.liquidity * (now - kp.2.lastUpdate),
      address := kp.1 })

/-- The running totalLiquidityTime accumulator (server.js lines 122-127). -/
def totalLiquidityTime (pd : List PosData) : Int :=
  pd.foldl (fun acc p => acc + p.liquidityTime) 0

/-- Read of data.claimed at a key: a missing entry defaults to the string 0
(server.js line 133). -/
def ledgerGet (led : List (String × Int)) (k : String) : Int :=
  (mapGet led k).getD 0

/-- One element of the list calculateRewards returns (server.js lines
131-142). -/
structure RewardEntry where
  provider : String
  chain : String
  pending : Int
  claimed : Int
  total : Int
deriving DecidableEq

/-- The calculateRewards function (server.js lines 101-143). Inputs that
the JS reads from ambient state are parameters: the event log, the current
unix time, the treasury balanceOf result and the claimed ledger. JS BigInt
division truncates toward zero, hence Int.tdiv. -/
def calculateRewards (events : List LiquidityEvent) (now : Int)
    (treasuryBalance : Int) (claimedLedger : List (String × Int)) :
    List RewardEntry :=
  let positions := buildPositions events
  if positions.length = 0 then []
  else
    let pd := posData positions now
    let tLT := totalLiquidityTime pd
    if tLT = 0 then []
    else
      pd.map (fun pos =>
        let totalReward := Int.tdiv (pos.liquidityTime * treasuryBalance) tLT
        let claimed := ledgerGet claimedLedger pos.address
        let pending := if totalReward > claimed then totalReward - claimed else 0
        { provider := pos.provider, chain := pos.chain, pending := pending,
          claimed := claimed, total := totalReward })

/-- One entry of data.claims as pushed by the claim endpoint. The
attestation field stores the truncated attestation of the attested branch;
the attestationStatus and attestationAttempts fields are set only on the
timeout branch and attestationTime only on the attested branch, exactly as
in server.js lines 410-424 and 448-462. -/
structure ClaimRecord where
  id : String
  recipient : String
  amount : Int
  burnTx : String
  messageHash : String
  destinationChainId : Int
  status : String
  attestation : Option String
  attestationStatus : Option String
  attestationAttempts : Option Nat
  attestationTime : Option Nat
  timestamp : Int
deriving DecidableEq

/-- The persisted server state: the data object of server.js line 66. -/
structure ServerData where
  events : List LiquidityEvent
  claimed : List (String × Int)
  claims : List ClaimRecord
deriving DecidableEq

/-- GET /api/claims/:claimId (server.js lines 252-262): first claim whose
id equals the path parameter; none is the 404 case. -/
def getClaimById (s : ServerData) (claimId : String) : Option ClaimRecord :=
  s.claims.find? (fun c => c.id == claimId)

/-- CCTP token messenger address (server.js lines 16-27; identical on both
configured chains). -/
def tokenMessengerAddr : String := "0x9f3B8679c73C2Fef8b59B4f3444d4e156fb70AA5"

/-- Placeholder for the USDC token address on Ethereum Sepolia, which the
server reads from its environment (CHAINS.ethereum.usdc). -/
def usdcEthereum : String := "USDC_ETHEREUM"

/-- CCTP_CONTRACTS destination-domain lookup keyed by chain id; none
models the JS undefined for an unconfigured chain id. -/
def cctpDomain (chainId : Int) : Option Int :=
  if chainId = 11155111 then some 0
  else if chainId = 84532 then some 6
  else none

/-- An on-chain transaction submitted by the claim endpoint, in submission
order. The mint recipient is recorded as the raw address; the 32-byte
zero-padding of server.js line 338 is byte formatting outside the
embedding. -/
inductive ChainAction where
  | approve (token : String) (spender : String) (amount : Int)
  | depositForBurn (amount : Int) (destinationDomain : Int)
      (mintRecipient : String) (burnToken : String)
deriving DecidableEq

/-- Outcome of one attestation poll iteration (server.js lines 388-405):
either a response with a status (and attestation payload, read only when
the status is complete), or a thrown request error. -/
inductive PollResult where
  | ok (status : String) (attestation : String)
  | err
deriving DecidableEq

/-- The attempt ceiling of the attestation poll (server.js line 382). -/
def maxAttempts : Nat := 60

/-- The attestation polling loop (server.js lines 384-406): returns the
attestation when a complete status arrives, the last seen status, and the
attempt count. A missing oracle entry behaves like a request error. -/
def runPoll (polls : List PollResult) (fuel : Nat) (status : String)
    (count : Nat) : Option String × String × Nat :=
  match fuel, polls with
  | 0, _ => (none, status, count)
  | Nat.succ n, [] => runPoll [] n status (count + 1)
  | Nat.succ n, PollResult.err :: rest => runPoll rest n status (count + 1)
  | Nat.succ n, PollResult.ok s a :: rest =>
      if s = "complete" then (some a, s, count + 1)
      else runPoll rest n s (count + 1)

/-- The request body of POST /api/claim. The amount is an optional JSON
number; the JS truthiness test on it makes an explicit 0 behave like an
absent amount. -/
structure ClaimRequest where
  address : String
  amount : Option Int
  destinationChainId : Int
deriving DecidableEq

/-- The externally determined inputs of one run of the claim endpoint. -/
structure ClaimOracle where
  now : Int
  treasuryBalance : Int
  claimId : String
  burnTxHash : String
  messageHash : String
  messageBytes : Option String
  polls : List PollResult
  claimTimestamp : Int
deriving DecidableEq

/-- The fields of the claim endpoint's JSON reply that the verified
properties read, together with the HTTP status code. -/
structure ApiResponse where
  statusCode : Nat
  success : Option Bool
  status : Option String
  claimId : Option String
  error : Option String
deriving DecidableEq

/-- The post-validation part of POST /api/claim (server.js lines 309-488):
approve, burn, message extraction, attestation poll, then either the
timeout branch (queue the claim as pending_attestation, debit the claimed
ledger, reply 202) or the attested branch (record the claim as attested,
debit the claimed ledger, reply 200). -/
def executeClaim (s : ServerData) (req : ClaimRequest) (o : ClaimOracle)
    (claimAmount : Int) : ApiResponse × ServerData × List ChainAction :=
  let approveAct := ChainAction.approve usdcEthereum tokenMessengerAddr claimAmount
  match cctpDomain req.destinationChainId with
  | none =>
      ({ statusCode := 500, success := none, status := none, claimId := none,
         error := some "Cannot read properties of undefined" }, s, [approveAct])
  | some domain =>
    let burnAct := ChainAction.depositForBurn claimAmount domain req.address usdcEthereum
    match o.messageBytes with
    | none =>
        ({ statusCode := 500, success := none, status := none, claimId := none,
           error := some "MessageSent event not found in transaction logs" },
         s, [approveAct, burnAct])
    | some _mb =>
      let pollOut := runPoll o.polls maxAttempts "pending" 0
      let addressLower := jsToLower req.address
      let previousClaimed := ledgerGet s.claimed addressLower
      match pollOut.1 with
      | none =>
        let claim : ClaimRecord :=
          { id := o.claimId, recipient := req.address, amount := claimAmount,
            burnTx := o.burnTxHash, messageHash := o.messageHash,
            destinationChainId := req.destinationChainId,
            status := "pending_attestation",
            attestation := none,
            attestationStatus := some pollOut.2.1,
            attestationAttempts := some pollOut.2.2,
            attestationTime := none,
            timestamp := o.claimTimestamp }
        let s2 : ServerData :=
          { s with claims := s.claims ++ [claim],
                   claimed := mapSet s.claimed addressLower
                     (previousClaimed + claimAmount) }
        ({ statusCode := 202, success := some true,
           status := some "pending_attestation", claimId := some o.claimId,
           error := none }, s2, [approveAct, burnAct])
      | some att =>
        let claim : ClaimRecord :=
          { id := o.claimId, recipient := req.address, amount := claimAmount,
            burnTx := o.burnTxHash, messageHash := o.messageHash,
            destinationChainId := req.destinationChainId,
            status := "attested",
            attestation := some (String.mk (att.data.take 50) ++ "..."),
            attestationStatus := none,
            attestationAttempts := none,
            attestationTime := some (pollOut.2.2 * 15),
            timestamp := o.claimTimestamp }
        let s2 : ServerData :=
          { s with claims := s.claims ++ [claim],
                   claimed := mapSet s.claimed addressLower
                     (previousClaimed + claimAmount) }
        ({ statusCode := 200, success := some true,
           status := some "attested", claimId := some o.claimId,
           error := none }, s2, [approveAct, burnAct])

/-- POST /api/claim (server.js lines 277-489): the same-chain guard, the
eligibility checks against calculateRewards, the JS-truthiness defaulting
of the amount, then executeClaim. Returns the reply, the new server state
and the submitted on-chain transactions. -/
def handleClaim (s : ServerData) (req : ClaimRequest) (o : ClaimOracle) :
    ApiResponse × ServerData × List ChainAction :=
  if req.destinationChainId = 11155111 then
    ({ statusCode := 400, success := none, status := none, claimId := none,
       error := some "Cannot claim to Ethereum Sepolia (same chain as treasury). Please select Base Sepolia as destination." },
     s, [])
  else
    let addressLower := jsToLower req.address
    let rewards := calculateRewards s.events o.now o.treasuryBalance s.claimed
    match rewards.find? (fun r => jsToLower r.provider == addressLower) with
    | none =>
        ({ statusCode := 400, success := none, status := none, claimId := none,
           error := some "No rewards available" }, s, [])
    | some userReward =>
      if userReward.pending = 0 then
        ({ statusCode := 400, success := none, status := none, claimId := none,
           error := some "No rewards available" }, s, [])
      else
        match req.amount with
        | some a =>
          if a = 0 then executeClaim s req o userReward.pending
          else if a > userReward.pending then
            ({ statusCode := 400, success := none, status := none,
               claimId := none,
               error := some "Claim amount exceeds available rewards" }, s, [])
          else executeClaim s req o a
        | none => executeClaim s req o userReward.pending

/-- The caller's current pending reward as the claim endpoint sees it: the
pending field of the caller's calculateRewards entry, zero when the caller
has no entry. -/
def userPending (s : ServerData) (req : ClaimRequest) (o : ClaimOracle) : Int :=
  match (calculateRewards s.events o.now o.treasuryBalance s.claimed).find?
      (fun r => jsToLower r.provider == jsToLower req.address) with
  | none => 0
  | some r => r.pending

/-- Sum of the liquidityDelta fields of a provider's LiquidityAdded events
(the quantity claim C4 compares the aggregated position against). -/
def sumDeltas (evs : List LiquidityEvent) (k : String) : Int :=
  ((evs.filter (fun e => e.type == "LiquidityAdded" && jsToLower e.provider == k)).map
    LiquidityEvent.liquidityDelta).sum

/-- The liquidity of the position stored under a key, zero when absent. -/
def liqOf (m : List (String × Position)) (k : String) : Int :=
  ((mapGet m k).map Position.liquidity).getD 0

/-- The time anchor stored under a key in a positions map. -/
def anchorOf (m : List (String × Position)) (k : String) : Option Int :=
  (mapGet m k).map Position.lastUpdate

/-- Timestamp of the first LiquidityAdded event of a provider in log
order. -/
def firstAddedTs (evs : List LiquidityEvent) (k : String) : Option Int :=
  (evs.find? (fun e => e.type == "LiquidityAdded" && jsToLower e.provider == k)).map
    LiquidityEvent.timestamp

/-- Fixture: a LiquidityAdded event stamped at unix second 200, in the
future relative to the evaluation instant 100 used against it. -/
def futureEv : LiquidityEvent :=
  { type := "LiquidityAdded", chain := "ethereum", provider := "p1",
    liquidityDelta := 1, timestamp := 200 }

/-- Fixture: a LiquidityAdded event stamped at unix second 50. -/
def pastEv : LiquidityEvent :=
  { type := "LiquidityAdded", chain := "ethereum", provider := "p1",
    liquidityDelta := 1, timestamp := 50 }

/-- Fixture: a provider's initial LiquidityAdded event at unix second
100. -/
def addEv1 : LiquidityEvent :=
  { type := "LiquidityAdded", chain := "ethereum", provider := "p1",
    liquidityDelta := 5, timestamp := 100 }

/-- Fixture: a later top-up LiquidityAdded event of the same provider at
unix second 200. -/
def addEv2 : LiquidityEvent :=
  { type := "LiquidityAdded", chain := "ethereum", provider := "p1",
    liquidityDelta := 7, timestamp := 200 }

/-- Fixture: first of two equal-weight providers. -/
def evA6 : LiquidityEvent :=
  { type := "LiquidityAdded", chain := "ethereum", provider := "pa",
    liquidityDelta := 1, timestamp := 0 }

/-- Fixture: second of two equal-weight providers. -/
def evB6 : LiquidityEvent :=
  { type := "LiquidityAdded", chain := "ethereum", provider := "pb",
    liquidityDelta := 1, timestamp := 0 }

/-- Fixture: a LiquidityAdded event stamped exactly at the evaluation
instant 5, so its position holds zero time. -/
def evT0 : LiquidityEvent :=
  { type := "LiquidityAdded", chain := "ethereum", provider := "p1",
    liquidityDelta := 3, timestamp := 5 }

/-- Fixture: a single provider with liquidity 1000 since unix second 0. -/
def evBig : LiquidityEvent :=
  { type := "LiquidityAdded", chain := "ethereum", provider := "p1",
    liquidityDelta := 1000, timestamp := 0 }

/-- Fixture: server state holding only the evBig event. -/
def sFix : ServerData := { events := [evBig], claimed := [], claims := [] }

/-- Fixture: empty server state. -/
def sEmpty : ServerData := { events := [], claimed := [], claims := [] }

/-- Fixture: a claim request for 5 base units to Base Sepolia. -/
def reqFix : ClaimRequest :=
  { address := "p1", amount := some 5, destinationChainId := 84532 }

/-- Fixture: a claim request whose destination is the treasury's own
chain. -/
def reqSameChain : ClaimRequest :=
  { address := "p1", amount := none, destinationChainId := 11155111 }

/-- Fixture: a claim request with the explicit JSON number 0 as amount. -/
def reqZeroAmt : ClaimRequest :=
  { address := "p1", amount := some 0, destinationChainId := 84532 }

/-- Fixture: oracle in which every attestation poll errors, so the poll
loop times out. -/
def oTimeout : ClaimOracle :=
  { now := 100, treasuryBalance := 1000000, claimId := "claim_1",
    burnTxHash := "0xburn", messageHash := "0xhash",
    messageBytes := some "0xmessage", polls := [], claimTimestamp := 7 }

/-- Fixture: oracle whose first attestation poll reports a complete
status. -/
def oComplete : ClaimOracle :=
  { now := 100, treasuryBalance := 1000000, claimId := "claim_2",
    burnTxHash := "0xburn2", messageHash := "0xhash2",
    messageBytes := some "0xmessage2",
    polls := [PollResult.ok "complete" "0xatt"], claimTimestamp := 8 }

/-- Fixture: the calculateRewards entry produced for evBig at instant 100
against a treasury balance of 1000000. -/
def urFix : RewardEntry :=
  { provider := "p1", chain := "ethereum", pending := 1000000,
    claimed := 0, total := 1000000 }

/-- Reading an association list after an update: the updated key returns
the new value, other keys are unchanged. -/
theorem mapGet_mapSet {α : Type} (m : List (String × α)) (k k2 : String) (v : α) :
    mapGet (mapSet m k v) k2 = if k = k2 then some v else mapGet m k2 := by
  induction m with
  | nil => simp [mapSet, mapGet]
  | cons hd tl ih =>
    obtain ⟨k3, v3⟩ := hd
    by_cases h3 : k3 = k
    · subst h3
      by_cases h2 : k3 = k2 <;> simp [mapSet, mapGet, h2]
    · by_cases h2 : k3 = k2
      · subst h2
        simp [mapSet, mapGet, h3, Ne.symm h3]
      · simp [mapSet, mapGet, h3, h2, ih]

/-- A successful lookup is a member of the association list. -/
theorem mapGet_mem {α : Type} {m : List (String × α)} {k : String} {v : α}
    (h : mapGet m k = some v) : (k, v) ∈ m := by
  induction m with
  | nil => simp [mapGet] at h
  | cons hd tl ih =>
    obtain ⟨k2, v2⟩ := hd
    by_cases h2 : k2 = k
    · subst h2
      simp [mapGet] at h
      simp [h]
    · simp [mapGet, h2] at h
      exact List.mem_cons_of_mem _ (ih h)

/-- Members of an updated association list are the new pair or old
members. -/
theorem mem_mapSet {α : Type} {m : List (String × α)} {k : String} {v : α}
    {kp : String × α} (h : kp ∈ mapSet m k v) : kp = (k, v) ∨ kp ∈ m := by
  induction m with
  | nil => simp [mapSet] at h; simp [h]
  | cons hd tl ih =>
    obtain ⟨k2, v2⟩ := hd
    by_cases h2 : k2 = k
    · subst h2
      simp [mapSet] at h
      rcases h with h | h
      · exact Or.inl h
      · exact Or.inr (List.mem_cons_of_mem _ h)
    · simp [mapSet, h2] at h
      rcases h with h | h
      · exact Or.inr (by simp [h])
      · rcases ih h with h1 | h1
        · exact Or.inl h1
        · exact Or.inr (List.mem_cons_of_mem _ h1)

/-- Folding the event loop over a log adds, per key, exactly the sum of
that key's LiquidityAdded deltas to the stored liquidity. -/
theorem liqOf_fold (evs : List LiquidityEvent) (m : List (String × Position))
    (k : String) :
    liqOf (List.foldl stepEvent m evs) k = liqOf m k + sumDeltas evs k := by
  induction evs generalizing m with
  | nil => simp [sumDeltas]
  | cons e rest ih =>
    rw [List.foldl_cons, ih]
    have hstep : liqOf (stepEvent m e) k = liqOf m k +
        (if e.type = "LiquidityAdded" ∧ jsToLower e.provider = k then
          e.liquidityDelta else 0) := by
      unfold stepEvent liqOf
      by_cases ht : e.type = "LiquidityAdded"
      · rw [if_pos ht]
        by_cases hk : jsToLower e.provider = k
        · rw [hk, mapGet_mapSet, if_pos rfl]
          cases hg : mapGet m k with
          | none => simp [hg, ht, hk]
          | some p => simp [hg, ht, hk]
        · rw [mapGet_mapSet, if_neg hk]
          simp [ht, hk]
      · rw [if_neg ht]
        simp [ht]
    have hsum : sumDeltas (e :: rest) k =
        (if e.type = "LiquidityAdded" ∧ jsToLower e.provider = k then
          e.liquidityDelta else 0) + sumDeltas rest k := by
      unfold sumDeltas
      by_cases ht : e.type = "LiquidityAdded" <;>
        by_cases hk : jsToLower e.provider = k <;>
          simp [List.filter_cons, ht, hk]
    rw [hstep, hsum]
    ring

/-- Folding the event loop: per key, the stored anchor is the one already
in the accumulator, or else the timestamp of the first matching
LiquidityAdded event of the log. -/
theorem anchorOf_fold (evs : List LiquidityEvent) (m : List (String × Position))
    (k : String) :
    anchorOf (List.foldl stepEvent m evs) k =
      match anchorOf m k with
      | some t => some t
      | none => firstAddedTs evs k := by
  induction evs generalizing m with
  | nil => cases h : anchorOf m k <;> simp [firstAddedTs, h]
  | cons e rest ih =>
    rw [List.foldl_cons, ih]
    by_cases ht : e.type = "LiquidityAdded"
    · by_cases hk : jsToLower e.provider = k
      · have hfa : firstAddedTs (e :: rest) k = some e.timestamp := by
          simp [firstAddedTs, List.find?_cons, ht, hk]
        cases hg : mapGet m k with
        | none =>
          have hanc : anchorOf m k = none := by simp [anchorOf, hg]
          have hstep : anchorOf (stepEvent m e) k = some e.timestamp := by
            unfold stepEvent anchorOf
            rw [if_pos ht, hk, mapGet_mapSet, if_pos rfl]
            simp [hg]
          rw [hstep, hanc, hfa]
        | some p =>
          have hanc : anchorOf m k = some p.lastUpdate := by simp [anchorOf, hg]
          have hstep : anchorOf (stepEvent m e) k = some p.lastUpdate := by
            unfold stepEvent anchorOf
            rw [if_pos ht, hk, mapGet_mapSet, if_pos rfl]
            simp [hg]
          rw [hstep, hanc]
      · have hfa : firstAddedTs (e :: rest) k = firstAddedTs rest k := by
          simp [firstAddedTs, List.find?_cons, ht, hk]
        have hstep : anchorOf (stepEvent m e) k = anchorOf m k := by
          unfold stepEvent anchorOf
          rw [if_pos ht, mapGet_mapSet, if_neg hk]
        rw [hstep, hfa]
    · have hfa : firstAddedTs (e :: rest) k = firstAddedTs rest k := by
        simp [firstAddedTs, List.find?_cons, ht]
      have hstep : stepEvent m e = m := by simp [stepEvent, ht]
      rw [hstep, hfa]

/-- Events other than LiquidityAdded are ignored by the event loop:
filtering the log down to LiquidityAdded events leaves the fold
unchanged. -/
theorem foldl_stepEvent_filter (evs : List LiquidityEvent)
    (m : List (String × Position)) :
    List.foldl stepEvent m (evs.filter (fun e => e.type == "LiquidityAdded")) =
      List.foldl stepEvent m evs := by
  induction evs generalizing m with
  | nil => rfl
  | cons e rest ih =>
    by_cases ht : e.type = "LiquidityAdded"
    · rw [List.filter_cons, if_pos (by simp [ht])]
      rw [List.foldl_cons, List.foldl_cons, ih]
    · have hstep : stepEvent m e = m := by simp [stepEvent, ht]
      rw [List.filter_cons, if_neg (by simp [ht])]
      rw [List.foldl_cons, hstep, ih]

/-- Every anchor stored by the event loop is bounded by a bound on all
event timestamps (and on the anchors already in the accumulator). -/
theorem lastUpdate_le_fold (now : Int) (evs : List LiquidityEvent)
    (m : List (String × Position))
    (hev : ∀ e ∈ evs, e.timestamp ≤ now)
    (hm : ∀ kp ∈ m, (Prod.snd kp).lastUpdate ≤ now) :
    ∀ kp ∈ List.foldl stepEvent m evs, (Prod.snd kp).lastUpdate ≤ now := by
  induction evs generalizing m with
  | nil => simpa using hm
  | cons e rest ih =>
    rw [List.foldl_cons]
    refine ih (stepEvent m e) (fun e2 he2 => hev e2 (List.mem_cons_of_mem _ he2)) ?_
    intro kp hkp
    unfold stepEvent at hkp
    by_cases ht : e.type = "LiquidityAdded"
    · rw [if_pos ht] at hkp
      rcases mem_mapSet hkp with heq | hmem
      · subst heq
        cases hg : mapGet m (jsToLower e.provider) with
        | none =>
          simp only [hg, Option.getD_none]
          exact hev e (List.mem_cons_self _ _)
        | some p =>
          simp only [hg, Option.getD_some]
          exact hm (jsToLower e.provider, p) (mapGet_mem hg)
      · exact hm kp hmem
    · rw [if_neg ht] at hkp
      exact hm kp hkp

/-- Every liquidity stored by the event loop is non-negative when all
deltas (and all liquidities already in the accumulator) are. -/
theorem liq_nonneg_fold (evs : List LiquidityEvent)
    (m : List (String × Position))
    (hev : ∀ e ∈ evs, 0 ≤ e.liquidityDelta)
    (hm : ∀ kp ∈ m, 0 ≤ (Prod.snd kp).liquidity) :
    ∀ kp ∈ List.foldl stepEvent m evs, 0 ≤ (Prod.snd kp).liquidity := by
  induction evs generalizing m with
  | nil => simpa using hm
  | cons e rest ih =>
    rw [List.foldl_cons]
    refine ih (stepEvent m e) (fun e2 he2 => hev e2 (List.mem_cons_of_mem _ he2)) ?_
    intro kp hkp
    unfold stepEvent at hkp
    by_cases ht : e.type = "LiquidityAdded"
    · rw [if_pos ht] at hkp
      rcases mem_mapSet hkp with heq | hmem
      · subst heq
        have hd : 0 ≤ e.liquidityDelta := hev e (List.mem_cons_self _ _)
        cases hg : mapGet m (jsToLower e.provider) with
        | none =>
          simp only [hg, Option.getD_none]
          simpa using hd
        | some p =>
          simp only [hg, Option.getD_some]
          have := hm (jsToLower e.provider, p) (mapGet_mem hg)
          simp only at this
          simpa using add_nonneg this hd
      · exact hm kp hmem
    · rw [if_neg ht] at hkp
      exact hm kp hkp

/-- The running totalLiquidityTime accumulator is the sum of the
liquidityTime fields. -/
theorem totalLiquidityTime_eq_sum (pd : List PosData) :
    totalLiquidityTime pd = (pd.map PosData.liquidityTime).sum := by
  have haux : ∀ (l : List PosData) (a : Int),
      l.foldl (fun acc p => acc + p.liquidityTime) a =
        a + (l.map PosData.liquidityTime).sum := by
    intro l
    induction l with
    | nil => intro a; simp
    | cons p rest ih =>
      intro a
      rw [List.foldl_cons, ih]
      simp [add_assoc]
  unfold totalLiquidityTime
  rw [haux]
  simp

/-- Floor-style division by a positive divisor is superadditive. -/
theorem ediv_add_ediv_le (a b T : Int) (hT : 0 < T) :
    a / T + b / T ≤ (a + b) / T := by
  rw [Int.le_ediv_iff_mul_le hT, add_mul]
  have h1 := Int.ediv_mul_le a (ne_of_gt hT)
  have h2 := Int.ediv_mul_le b (ne_of_gt hT)
  linarith

/-- Summing floor-style divisions never exceeds the division of the sum. -/
theorem sum_ediv_le (xs : List Int) (T : Int) (hT : 0 < T) :
    (xs.map (fun x => x / T)).sum ≤ xs.sum / T := by
  induction xs with
  | nil => simp
  | cons x rest ih =>
    simp only [List.map_cons, List.sum_cons]
    calc x / T + (rest.map (fun x => x / T)).sum
        ≤ x / T + rest.sum / T := by linarith
      _ ≤ (x + rest.sum) / T := ediv_add_ediv_le _ _ _ hT

/-- Both guards of calculateRewards passed: when totalLiquidityTime is
nonzero the function is the per-position map of server.js lines 131-142.
A zero-length positions map is impossible here, because it would force
totalLiquidityTime to zero. -/
theorem calculateRewards_eq (evs : List LiquidityEvent) (now B : Int)
    (led : List (String × Int))
    (hT : totalLiquidityTime (posData (buildPositions evs) now) ≠ 0) :
    calculateRewards evs now B led =
      (posData (buildPositions evs) now).map (fun pos =>
        let totalReward := Int.tdiv (pos.liquidityTime * B)
          (totalLiquidityTime (posData (buildPositions evs) now))
        let claimed := ledgerGet led pos.address
        { provider := pos.provider, chain := pos.chain,
          pending := if totalReward > claimed then totalReward - claimed else 0,
          claimed := claimed, total := totalReward }) := by
  unfold calculateRewards
  by_cases hp : (buildPositions evs).length = 0
  · exfalso
    apply hT
    rw [List.length_eq_zero.mp hp]
    simp [posData, totalLiquidityTime]
  · simp only [if_neg hp, if_neg hT]

/-- Every liquidityTime in the posData array is non-negative when all
deltas are non-negative and no event is stamped in the future. -/
theorem liquidityTime_nonneg (evs : List LiquidityEvent) (now : Int)
    (hd : ∀ e ∈ evs, 0 ≤ e.liquidityDelta)
    (hts : ∀ e ∈ evs, e.timestamp ≤ now) :
    ∀ p ∈ posData (buildPositions evs) now, 0 ≤ p.liquidityTime := by
  intro p hp
  unfold posData at hp
  rcases List.mem_map.mp hp with ⟨kp, hkp, rfl⟩
  have h1 : 0 ≤ kp.2.liquidity :=
    liq_nonneg_fold evs [] hd (by simp) kp hkp
  have h2 : kp.2.lastUpdate ≤ now :=
    lastUpdate_le_fold now evs [] hts (by simp) kp hkp
  exact mul_nonneg h1 (by linarith)

/-- The sum of all total fields of the calculateRewards output is bounded
by the treasury balance, under non-negative deltas, no future timestamps
and a non-negative balance. -/
theorem sum_total_le (evs : List LiquidityEvent) (now B : Int)
    (led : List (String × Int))
    (hd : ∀ e ∈ evs, 0 ≤ e.liquidityDelta)
    (hts : ∀ e ∈ evs, e.timestamp ≤ now)
    (hB : 0 ≤ B) :
    ((calculateRewards evs now B led).map RewardEntry.total).sum ≤ B := by
  by_cases hT : totalLiquidityTime (posData (buildPositions evs) now) = 0
  · unfold calculateRewards
    by_cases hp : (buildPositions evs).length = 0
    · simp [hp, hB]
    · simp only [if_neg hp, hT, if_pos rfl]
      simpa using hB
  · have hlt := liquidityTime_nonneg evs now hd hts
    have hT0 : 0 ≤ totalLiquidityTime (posData (buildPositions evs) now) := by
      rw [totalLiquidityTime_eq_sum]
      apply List.sum_nonneg
      intro x hx
      rcases List.mem_map.mp hx with ⟨p, hp, rfl⟩
      exact hlt p hp
    have hTpos : 0 < totalLiquidityTime (posData (buildPositions evs) now) :=
      lt_of_le_of_ne hT0 (Ne.symm hT)
    rw [calculateRewards_eq evs now B led hT]
    set pd := posData (buildPositions evs) now with hpd
    set T := totalLiquidityTime pd with hTdef
    have hmaps : ((pd.map (fun pos =>
        let totalReward := Int.tdiv (pos.liquidityTime * B) T
        let claimed := ledgerGet led pos.address
        ({ provider := pos.provider, chain := pos.chain,
           pending := if totalReward > claimed then totalReward - claimed else 0,
           claimed := claimed, total := totalReward } : RewardEntry))).map
          RewardEntry.total) =
        pd.map (fun pos => (pos.liquidityTime * B) / T) := by
      rw [List.map_map]
      apply List.map_congr_left
      intro p hp
      simp only [Function.comp]
      exact Int.tdiv_eq_ediv (mul_nonneg (hlt p hp) hB) (le_of_lt hTpos)
    rw [hmaps]
    have hstep1 : pd.map (fun pos => (pos.liquidityTime * B) / T) =
        (pd.map (fun pos => pos.liquidityTime * B)).map (fun x => x / T) := by
      rw [List.map_map]
      rfl
    rw [hstep1]
    calc ((pd.map (fun pos => pos.liquidityTime * B)).map (fun x => x / T)).sum
        ≤ (pd.map (fun pos => pos.liquidityTime * B)).sum / T :=
          sum_ediv_le _ T hTpos
      _ = ((pd.map PosData.liquidityTime).sum * B) / T := by
          rw [List.sum_map_mul_right]
      _ = (T * B) / T := by rw [hTdef, totalLiquidityTime_eq_sum]
      _ = B := Int.mul_ediv_cancel_left B (ne_of_gt hTpos)

/-- When no poll iteration ever reports a complete status, the loop runs
out its fuel with no attestation, incrementing the attempt counter once
per iteration. -/
theorem runPoll_no_complete (polls : List PollResult) (n : Nat) (st : String)
    (c : Nat)
    (h : ∀ s2 a, PollResult.ok s2 a ∈ polls → s2 ≠ "complete") :
    (runPoll polls n st c).1 = none ∧ (runPoll polls n st c).2.2 = c + n := by
  induction n generalizing polls st c with
  | zero => simp [runPoll]
  | succ n ih =>
    cases polls with
    | nil =>
      have := ih [] st (c + 1) (by intro s2 a ha; simp at ha)
      simp only [runPoll]
      exact ⟨this.1, by rw [this.2]; omega⟩
    | cons p rest =>
      cases p with
      | err =>
        have := ih rest st (c + 1)
          (fun s2 a ha => h s2 a (List.mem_cons_of_mem _ ha))
        simp only [runPoll]
        exact ⟨this.1, by rw [this.2]; omega⟩
      | ok s2 a =>
        have hs2 : ¬s2 = "complete" := h s2 a (List.mem_cons_self _ _)
        have := ih rest s2 (c + 1)
          (fun s3 a3 ha => h s3 a3 (List.mem_cons_of_mem _ ha))
        simp only [runPoll, if_neg hs2]
        exact ⟨this.1, by rw [this.2]; omega⟩

/-- A claim appended to a list of claims with fresh ids is the one found
by a lookup for its id. -/
theorem find?_claims_append (l : List ClaimRecord) (claim : ClaimRecord)
    (cid : String) (hfresh : ∀ c ∈ l, c.id ≠ cid) (hid : claim.id = cid) :
    (l ++ [claim]).find? (fun c => c.id == cid) = some claim := by
  induction l with
  | nil => simp [List.find?, hid]
  | cons c rest ih =>
    have hc : (c.id == cid) = false := by
      simp [hfresh c (List.mem_cons_self _ _)]
    rw [List.cons_append, List.find?_cons, hc]
    exact ih (fun c2 hc2 => hfresh c2 (List.mem_cons_of_mem _ hc2))

/-- Reading the claimed ledger at the key just written returns the written
value. -/
theorem ledgerGet_mapSet (led : List (String × Int)) (k : String) (v : Int) :
    ledgerGet (mapSet led k v) k = v := by
  unfold ledgerGet
  rw [mapGet_mapSet, if_pos rfl]
  rfl

/-- Whatever the oracle does, the action list of the post-validation claim
path starts with the approval of the claim amount to the token messenger:
the code consults no allowance and has no path that skips the approval. -/
theorem executeClaim_acts (s : ServerData) (req : ClaimRequest)
    (o : ClaimOracle) (claimAmount : Int) :
    ((executeClaim s req o claimAmount).2.2).head? =
      some (ChainAction.approve usdcEthereum tokenMessengerAddr claimAmount) := by
  unfold executeClaim
  cases cctpDomain req.destinationChainId with
  | none => rfl
  | some d =>
    cases o.messageBytes with
    | none => rfl
    | some mb =>
      cases h : (runPoll o.polls maxAttempts "pending" 0).1 with
      | none => simp [h]
      | some att => simp [h]

/-- A successful find in a prefix is the find of the whole list. -/
theorem find?_append_left {α : Type} (p : α → Bool) (l1 l2 : List α) (x : α)
    (h : l1.find? p = some x) : (l1 ++ l2).find? p = some x := by
  induction l1 with
  | nil => simp [List.find?] at h
  | cons a rest ih =>
    rw [List.cons_append, List.find?_cons]
    rw [List.find?_cons] at h
    cases hp : p a
    · rw [hp] at h
      simpa using ih (by simpa using h)
    · rw [hp] at h
      simpa using h

/-- The pending field of every calculateRewards entry is the truncated
difference of its total and claimed fields. -/
theorem mem_calculateRewards_pending (evs : List LiquidityEvent) (now B : Int)
    (led : List (String × Int)) (r : RewardEntry)
    (hr : r ∈ calculateRewards evs now B led) :
    r.pending = if r.total > r.claimed then r.total - r.claimed else 0 := by
  unfold calculateRewards at hr
  by_cases hp : (buildPositions evs).length = 0
  · simp [hp] at hr
  · simp only [if_neg hp] at hr
    by_cases hT : totalLiquidityTime (posData (buildPositions evs) now) = 0
    · simp [hT] at hr
    · simp only [if_neg hT] at hr
      rcases List.mem_map.mp hr with ⟨pos, hpos, rfl⟩
      simp

/-- Splitting the sum of a pointwise addition. -/
theorem sum_map_add_split {α : Type} (l : List α) (f g : α → Int) :
    (l.map (fun x => f x + g x)).sum = (l.map f).sum + (l.map g).sum := by
  induction l with
  | nil => simp
  | cons x rest ih =>
    simp only [List.map_cons, List.sum_cons, ih]
    ring

/-- C4: in the reward computation only LiquidityAdded events affect a
provider's position: for every event log and every key, the aggregated
liquidity is the sum of liquidityDelta over that provider's LiquidityAdded
events alone, and filtering every non-LiquidityAdded event (in particular
every LiquidityRemoved event) out of the log leaves the whole positions
map, hence both liquidity and time anchor, unchanged. -/
theorem c4_only_added_events_affect_positions :
    ∀ (evs : List LiquidityEvent) (k : String),
      liqOf (buildPositions evs) k = sumDeltas evs k ∧
      buildPositions (evs.filter (fun e => e.type == "LiquidityAdded")) =
        buildPositions evs := by
  intro evs k
  constructor
  · unfold buildPositions
    rw [liqOf_fold]
    simp [liqOf, mapGet]
  · exact foldl_stepEvent_filter evs []

/-- C5: the time anchor of every provider with at least one
LiquidityAdded event is the unix timestamp of that provider's first (log
order, hence earliest arriving) LiquidityAdded event, and appending any
later event, in particular a top-up LiquidityAdded of the same provider,
does not change the anchor (first-update policy). -/
theorem c5_anchor_is_first_added_timestamp :
    ∀ (evs : List LiquidityEvent) (k : String),
      anchorOf (buildPositions evs) k = firstAddedTs evs k ∧
      (∀ e2 : LiquidityEvent, firstAddedTs evs k ≠ none →
        anchorOf (buildPositions (evs ++ [e2])) k =
          anchorOf (buildPositions evs) k) := by
  have hmain : ∀ (l : List LiquidityEvent) (k : String),
      anchorOf (buildPositions l) k = firstAddedTs l k := by
    intro l k
    unfold buildPositions
    rw [anchorOf_fold]
    simp [anchorOf, mapGet]
  intro evs k
  refine ⟨hmain evs k, ?_⟩
  intro e2 hne
  rw [hmain, hmain]
  unfold firstAddedTs at hne ⊢
  cases hf : evs.find?
      (fun e => e.type == "LiquidityAdded" && jsToLower e.provider == k) with
  | none => rw [hf] at hne; simp at hne
  | some e0 =>
    rw [find?_append_left _ evs [e2] e0 hf]

/-- C5 witness: with a first add at unix second 100, the anchor is 100 and
a top-up at unix second 200 leaves it at 100. -/
theorem c5_witness :
    firstAddedTs [addEv1] "p1" ≠ none ∧
    anchorOf (buildPositions ([addEv1] ++ [addEv2])) "p1" =
      anchorOf (buildPositions [addEv1]) "p1" :=
  ⟨by decide, (c5_anchor_is_first_added_timestamp [addEv1] "p1").2 addEv2
    (by decide)⟩

/-- C7: calculateRewards returns the empty list when the log yields no
positions (in particular on the empty log), and returns the empty list
when totalLiquidityTime is zero, short-circuiting before the reward
division is reached. -/
theorem c7_empty_and_zero_time_cases :
    ∀ (evs : List LiquidityEvent) (now B : Int) (led : List (String × Int)),
      (buildPositions evs = [] → calculateRewards evs now B led = []) ∧
      (totalLiquidityTime (posData (buildPositions evs) now) = 0 →
        calculateRewards evs now B led = []) ∧
      calculateRewards [] now B led = [] := by
  intro evs now B led
  refine ⟨?_, ?_, rfl⟩
  · intro h
    unfold calculateRewards
    rw [h]
    simp
  · intro h
    unfold calculateRewards
    by_cases hp : (buildPositions evs).length = 0
    · simp [hp]
    · simp [hp, h]

/-- C7 witness: one position added exactly at the evaluation instant has
zero held time, so totalLiquidityTime is zero and the result is empty. -/
theorem c7_witness :
    totalLiquidityTime (posData (buildPositions [evT0]) 5) = 0 ∧
    calculateRewards [evT0] 5 9 [] = [] :=
  ⟨by decide, (c7_empty_and_zero_time_cases [evT0] 5 9 []).2.1 (by decide)⟩

/-- C8 (amended): timeHeld = now minus anchor is non-negative for every
position whenever no event in the log is stamped after the evaluation
instant; the code itself neither rejects nor clamps future-stamped events,
as the counterexample shows. -/
theorem c8_timeheld_nonneg_without_future_events :
    ∀ (evs : List LiquidityEvent) (now : Int),
      (∀ e ∈ evs, e.timestamp ≤ now) →
      ∀ kp ∈ buildPositions evs, 0 ≤ now - (Prod.snd kp).lastUpdate := by
  intro evs now hev kp hkp
  have := lastUpdate_le_fold now evs [] hev (by simp) kp hkp
  linarith

/-- C8 counterexample: an event stamped at unix second 200, evaluated at
instant 100, is neither rejected nor clamped: its position's anchor is
200, its timeHeld is the negative value 100 - 200, its liquidityTime is
-100, and calculateRewards still emits an entry for it. -/
theorem c8_counterexample :
    anchorOf (buildPositions [futureEv]) "p1" = some 200 ∧
    (100 : Int) - 200 < 0 ∧
    (posData (buildPositions [futureEv]) 100).map PosData.liquidityTime =
      [-100] ∧
    (calculateRewards [futureEv] 100 7 []).length = 1 := by
  refine ⟨by decide, by decide, by decide, by decide⟩

/-- C8 witness: with the only event stamped at 50 and evaluation at 100,
every position's timeHeld is non-negative. -/
theorem c8_witness :
    (∀ e ∈ [pastEv], e.timestamp ≤ (100 : Int)) ∧
    (∀ kp ∈ buildPositions [pastEv], 0 ≤ (100 : Int) - (Prod.snd kp).lastUpdate) :=
  ⟨by decide, c8_timeheld_nonneg_without_future_events [pastEv] 100 (by decide)⟩

/-- C6: with non-negative deltas, no future timestamps, a non-negative
balance and positive totalLiquidityTime, every totalReward is the floor of
liquidityTime times balance over totalLiquidityTime, and the rewards sum
to at most the balance; concretely, two providers of equal liquidityTime
splitting a balance of 3 each receive 1, leaving 1 unit unallocated. -/
theorem c6_floor_division_and_residual :
    (∀ (evs : List LiquidityEvent) (now B : Int) (led : List (String × Int)),
      (∀ e ∈ evs, 0 ≤ e.liquidityDelta) →
      (∀ e ∈ evs, e.timestamp ≤ now) →
      0 ≤ B →
      0 < totalLiquidityTime (posData (buildPositions evs) now) →
      (calculateRewards evs now B led).map RewardEntry.total =
        (posData (buildPositions evs) now).map (fun p =>
          Int.fdiv (p.liquidityTime * B)
            (totalLiquidityTime (posData (buildPositions evs) now))) ∧
      ((calculateRewards evs now B led).map RewardEntry.total).sum ≤ B) ∧
    (calculateRewards [evA6, evB6] 10 3 []).map RewardEntry.total = [1, 1] ∧
    ((calculateRewards [evA6, evB6] 10 3 []).map RewardEntry.total).sum + 1 = 3 := by
  refine ⟨?_, by decide, by decide⟩
  intro evs now B led hd hts hB hT
  have hTne : totalLiquidityTime (posData (buildPositions evs) now) ≠ 0 :=
    ne_of_gt hT
  constructor
  · rw [calculateRewards_eq evs now B led hTne]
    rw [List.map_map]
    apply List.map_congr_left
    intro p hp
    have h1 : 0 ≤ p.liquidityTime := liquidityTime_nonneg evs now hd hts p hp
    simp only [Function.comp]
    rw [Int.tdiv_eq_ediv (mul_nonneg h1 hB) (le_of_lt hT),
        Int.fdiv_eq_ediv _ (le_of_lt hT)]
  · exact sum_total_le evs now B led hd hts hB

/-- C6 witness: one provider, balance 5: its total is the floor division
value and the sum is bounded by 5. -/
theorem c6_witness :
    (0 : Int) < totalLiquidityTime (posData (buildPositions [evA6]) 10) ∧
    ((calculateRewards [evA6] 10 5 []).map RewardEntry.total =
      (posData (buildPositions [evA6]) 10).map (fun p =>
        Int.fdiv (p.liquidityTime * 5)
          (totalLiquidityTime (posData (buildPositions [evA6]) 10))) ∧
    ((calculateRewards [evA6] 10 5 []).map RewardEntry.total).sum ≤ 5) :=
  ⟨by decide, c6_floor_division_and_residual.1 [evA6] 10 5 []
    (by decide) (by decide) (by decide) (by decide)⟩

/-- C2 (amended): the sum of pending plus the sum of claimed over the
calculateRewards output is at most the treasury balance, provided deltas
are non-negative, no event is stamped in the future, the balance is
non-negative, and no provider's claimed amount exceeds their total reward
share; without the last hypothesis the bound fails, as the counterexample
shows. -/
theorem c2_pending_plus_claimed_bounded :
    ∀ (evs : List LiquidityEvent) (now B : Int) (led : List (String × Int)),
      (∀ e ∈ evs, 0 ≤ e.liquidityDelta) →
      (∀ e ∈ evs, e.timestamp ≤ now) →
      0 ≤ B →
      (∀ r ∈ calculateRewards evs now B led, r.claimed ≤ r.total) →
      ((calculateRewards evs now B led).map RewardEntry.pending).sum +
        ((calculateRewards evs now B led).map RewardEntry.claimed).sum ≤ B := by
  intro evs now B led hd hts hB hcl
  rw [← sum_map_add_split]
  have hmap : (calculateRewards evs now B led).map
      (fun r => r.pending + r.claimed) =
      (calculateRewards evs now B led).map RewardEntry.total := by
    apply List.map_congr_left
    intro r hr
    have hc := hcl r hr
    have hpend := mem_calculateRewards_pending evs now B led r hr
    by_cases hgt : r.total > r.claimed
    · rw [hpend, if_pos hgt]; ring
    · rw [hpend, if_neg hgt]
      omega
  rw [hmap]
  exact sum_total_le evs now B led hd hts hB

/-- C2 counterexample: with one provider holding liquidity 1 for one
second, a treasury balance of 0 and a claimed ledger already at 10, the
output's pending plus claimed sums to 10, exceeding the balance 0 - the
claim fails without a bound on the claimed ledger. -/
theorem c2_counterexample :
    ¬ (((calculateRewards [pastEv] 51 0 [("p1", 10)]).map
          RewardEntry.pending).sum +
        ((calculateRewards [pastEv] 51 0 [("p1", 10)]).map
          RewardEntry.claimed).sum ≤ (0 : Int)) := by
  decide

/-- C2 witness: a concrete instance of the amended bound with balance 5
and an empty claimed ledger. -/
theorem c2_witness :
    (∀ r ∈ calculateRewards [evA6] 10 5 [], r.claimed ≤ r.total) ∧
    ((calculateRewards [evA6] 10 5 []).map RewardEntry.pending).sum +
      ((calculateRewards [evA6] 10 5 []).map RewardEntry.claimed).sum ≤ 5 :=
  ⟨by decide, c2_pending_plus_claimed_bounded [evA6] 10 5 []
    (by decide) (by decide) (by decide) (by decide)⟩

/-- C3: POST /api/claim returns 400, submits no on-chain transaction and
leaves the state (claimed ledger and stored claims included) unchanged
whenever the destination is the treasury's own chain 11155111, or the
caller's current pending reward is zero (including an absent reward
entry), or a truthy explicit amount exceeds the pending reward. -/
theorem c3_validation_rejections_are_pure :
    ∀ (s : ServerData) (req : ClaimRequest) (o : ClaimOracle),
      (req.destinationChainId = 11155111 ∨ userPending s req o = 0 ∨
        (∃ a, req.amount = some a ∧ a ≠ 0 ∧ userPending s req o < a)) →
      (handleClaim s req o).1.statusCode = 400 ∧
      (handleClaim s req o).2.1 = s ∧ (handleClaim s req o).2.2 = [] := by
  intro s req o hrej
  by_cases hd : req.destinationChainId = 11155111
  · refine ⟨?_, ?_, ?_⟩ <;> simp [handleClaim, hd]
  · cases hf : (calculateRewards s.events o.now o.treasuryBalance s.claimed).find?
        (fun r => jsToLower r.provider == jsToLower req.address) with
    | none =>
      refine ⟨?_, ?_, ?_⟩ <;> simp [handleClaim, hd, hf]
    | some ur =>
      have hup : userPending s req o = ur.pending := by
        simp [userPending, hf]
      rcases hrej with h | h | h
      · exact absurd h hd
      · rw [hup] at h
        refine ⟨?_, ?_, ?_⟩ <;> simp [handleClaim, hd, hf, h]
      · obtain ⟨a, ha, ha0, hlt⟩ := h
        rw [hup] at hlt
        by_cases hp0 : ur.pending = 0
        · refine ⟨?_, ?_, ?_⟩ <;> simp [handleClaim, hd, hf, hp0]
        · have hgt : a > ur.pending := hlt
          refine ⟨?_, ?_, ?_⟩ <;>
            simp [handleClaim, hd, hf, hp0, ha, ha0, hgt]

/-- C3 witness: a same-chain claim request against the empty state is
rejected with 400, no state change and no on-chain action. -/
theorem c3_witness :
    (handleClaim sEmpty reqSameChain oTimeout).1.statusCode = 400 ∧
    (handleClaim sEmpty reqSameChain oTimeout).2.1 = sEmpty ∧
    (handleClaim sEmpty reqSameChain oTimeout).2.2 = [] :=
  c3_validation_rejections_are_pure sEmpty reqSameChain oTimeout (Or.inl rfl)

/-- C1: after a validated claim whose burn leg succeeded, if no poll
iteration ever reports a complete status, the poll reaches its attempt
ceiling, the claimed ledger entry of the caller grows by exactly the claim
amount, a claim record with status pending_attestation is appended and is
retrievable by its id through the claim-by-id lookup, and the caller gets
a successful 202 reply with status pending_attestation. -/
theorem c1_timeout_queues_claim_and_debits_ledger :
    ∀ (s : ServerData) (req : ClaimRequest) (o : ClaimOracle)
      (ur : RewardEntry) (a : Int),
      req.destinationChainId = 84532 →
      (calculateRewards s.events o.now o.treasuryBalance s.claimed).find?
        (fun r => jsToLower r.provider == jsToLower req.address) = some ur →
      ur.pending ≠ 0 →
      req.amount = some a → a ≠ 0 → a ≤ ur.pending →
      o.messageBytes.isSome = true →
      (∀ st att, PollResult.ok st att ∈ o.polls → st ≠ "complete") →
      (∀ c ∈ s.claims, c.id ≠ o.claimId) →
      (handleClaim s req o).1.statusCode = 202 ∧
      (handleClaim s req o).1.success = some true ∧
      (handleClaim s req o).1.status = some "pending_attestation" ∧
      ledgerGet (handleClaim s req o).2.1.claimed (jsToLower req.address) =
        ledgerGet s.claimed (jsToLower req.address) + a ∧
      (getClaimById (handleClaim s req o).2.1 o.claimId).map ClaimRecord.status =
        some "pending_attestation" ∧
      (getClaimById (handleClaim s req o).2.1 o.claimId).map ClaimRecord.amount =
        some a ∧
      (getClaimById (handleClaim s req o).2.1 o.claimId).map
        ClaimRecord.attestationAttempts = some (some maxAttempts) := by
  intro s req o ur a hdest hfind hpend hamt ha0 hale hmb hpolls hfresh
  obtain ⟨mb, hmb2⟩ := Option.isSome_iff_exists.mp hmb
  have hpoll := runPoll_no_complete o.polls maxAttempts "pending" 0 hpolls
  have hgt : ¬ a > ur.pending := not_lt.mpr hale
  have hd2 : ¬ req.destinationChainId = 11155111 := by rw [hdest]; decide
  have hdom : cctpDomain req.destinationChainId = some 6 := by
    rw [hdest]; rfl
  have hred : handleClaim s req o = executeClaim s req o a := by
    simp [handleClaim, hd2, hfind, hamt, ha0, hgt, hpend]
  have hcnt : (runPoll o.polls maxAttempts "pending" 0).2.2 = maxAttempts := by
    rw [hpoll.2]
    omega
  have hexe : executeClaim s req o a =
      ({ statusCode := 202, success := some true,
         status := some "pending_attestation", claimId := some o.claimId,
         error := none },
       { s with
          claims := s.claims ++
            [{ id := o.claimId, recipient := req.address, amount := a,
               burnTx := o.burnTxHash, messageHash := o.messageHash,
               destinationChainId := req.destinationChainId,
               status := "pending_attestation",
               attestation := none,
               attestationStatus :=
                 some (runPoll o.polls maxAttempts "pending" 0).2.1,
               attestationAttempts := some maxAttempts,
               attestationTime := none,
               timestamp := o.claimTimestamp }],
          claimed := mapSet s.claimed (jsToLower req.address)
            (ledgerGet s.claimed (jsToLower req.address) + a) },
       [ChainAction.approve usdcEthereum tokenMessengerAddr a,
        ChainAction.depositForBurn a 6 req.address usdcEthereum]) := by
    simp [executeClaim, hdom, hmb2, hpoll.1, hcnt]
  rw [hred, hexe]
  have hgc : getClaimById
      { s with
          claims := s.claims ++
            [{ id := o.claimId, recipient := req.address, amount := a,
               burnTx := o.burnTxHash, messageHash := o.messageHash,
               destinationChainId := req.destinationChainId,
               status := "pending_attestation",
               attestation := none,
               attestationStatus :=
                 some (runPoll o.polls maxAttempts "pending" 0).2.1,
               attestationAttempts := some maxAttempts,
               attestationTime := none,
               timestamp := o.claimTimestamp }],
          claimed := mapSet s.claimed (jsToLower req.address)
            (ledgerGet s.claimed (jsToLower req.address) + a) }
      o.claimId =
      some { id := o.claimId, recipient := req.address, amount := a,
             burnTx := o.burnTxHash, messageHash := o.messageHash,
             destinationChainId := req.destinationChainId,
             status := "pending_attestation",
             attestation := none,
             attestationStatus :=
               some (runPoll o.polls maxAttempts "pending" 0).2.1,
             attestationAttempts := some maxAttempts,
             attestationTime := none,
             timestamp := o.claimTimestamp } := by
    unfold getClaimById
    exact find?_claims_append s.claims _ o.claimId hfresh rfl
  refine ⟨rfl, rfl, rfl, ?_, ?_, ?_, ?_⟩
  · exact ledgerGet_mapSet s.claimed (jsToLower req.address) _
  · rw [hgc]; rfl
  · rw [hgc]; rfl
  · rw [hgc]; rfl

/-- C1 witness: concrete state with pending 1000000, an explicit claim of
5 units to Base Sepolia and an oracle whose polls all error: the reply is
202 pending_attestation, the ledger debit is 5 and the queued claim is
retrievable by id. -/
theorem c1_witness :
    (handleClaim sFix reqFix oTimeout).1.statusCode = 202 ∧
    (handleClaim sFix reqFix oTimeout).1.success = some true ∧
    (handleClaim sFix reqFix oTimeout).1.status = some "pending_attestation" ∧
    ledgerGet (handleClaim sFix reqFix oTimeout).2.1.claimed
        (jsToLower reqFix.address) =
      ledgerGet sFix.claimed (jsToLower reqFix.address) + 5 ∧
    (getClaimById (handleClaim sFix reqFix oTimeout).2.1
        oTimeout.claimId).map ClaimRecord.status = some "pending_attestation" ∧
    (getClaimById (handleClaim sFix reqFix oTimeout).2.1
        oTimeout.claimId).map ClaimRecord.amount = some 5 ∧
    (getClaimById (handleClaim sFix reqFix oTimeout).2.1
        oTimeout.claimId).map ClaimRecord.attestationAttempts =
      some (some maxAttempts) :=
  c1_timeout_queues_claim_and_debits_ledger sFix reqFix oTimeout urFix 5
    rfl (by decide) (by decide) rfl (by decide) (by decide) rfl
    (fun st att h => absurd h (List.not_mem_nil _))
    (fun c hc => absurd hc (List.not_mem_nil _))

/-- C10: when the request omits the amount or supplies the falsy number 0,
the claim proceeds with the caller's entire pending reward - visible as
the amount of the approval transaction the handler submits first. -/
theorem c10_falsy_amount_defaults_to_full_pending :
    ∀ (s : ServerData) (req : ClaimRequest) (o : ClaimOracle)
      (ur : RewardEntry),
      req.destinationChainId ≠ 11155111 →
      (calculateRewards s.events o.now o.treasuryBalance s.claimed).find?
        (fun r => jsToLower r.provider == jsToLower req.address) = some ur →
      ur.pending ≠ 0 →
      (req.amount = none ∨ req.amount = some 0) →
      ((handleClaim s req o).2.2).head? =
        some (ChainAction.approve usdcEthereum tokenMessengerAddr ur.pending) := by
  intro s req o ur hd hf hp ham
  have hred : handleClaim s req o = executeClaim s req o ur.pending := by
    rcases ham with ha | ha <;> simp [handleClaim, hd, hf, ha, hp]
  rw [hred]
  exact executeClaim_acts s req o ur.pending

/-- C10 witness: an explicit amount of 0 claims the full pending balance
of 1000000, not zero. -/
theorem c10_witness :
    ((handleClaim sFix reqZeroAmt oTimeout).2.2).head? =
      some (ChainAction.approve usdcEthereum tokenMessengerAddr
        urFix.pending) :=
  c10_falsy_amount_defaults_to_full_pending sFix reqZeroAmt oTimeout urFix
    (by decide) (by decide) (by decide) (Or.inr rfl)

/-- C9 (amended): the claim endpoint never reads any allowance; on every
run it either submits no on-chain transaction at all (a validation
rejection) or its very first submitted transaction is the unconditional
approval of the claim amount to the token messenger. -/
theorem c9_approval_always_submitted :
    ∀ (s : ServerData) (req : ClaimRequest) (o : ClaimOracle),
      (handleClaim s req o).2.2 = [] ∨
      ∃ amt, ((handleClaim s req o).2.2).head? =
        some (ChainAction.approve usdcEthereum tokenMessengerAddr amt) := by
  intro s req o
  by_cases hd : req.destinationChainId = 11155111
  · left; simp [handleClaim, hd]
  · cases hf : (calculateRewards s.events o.now o.treasuryBalance s.claimed).find?
        (fun r => jsToLower r.provider == jsToLower req.address) with
    | none => left; simp [handleClaim, hd, hf]
    | some ur =>
      by_cases hp : ur.pending = 0
      · left; simp [handleClaim, hd, hf, hp]
      · cases ha : req.amount with
        | none =>
          right
          refine ⟨ur.pending, ?_⟩
          have hred : handleClaim s req o = executeClaim s req o ur.pending := by
            simp [handleClaim, hd, hf, ha, hp]
          rw [hred]
          exact executeClaim_acts s req o ur.pending
        | some a =>
          by_cases ha0 : a = 0
          · right
            refine ⟨ur.pending, ?_⟩
            have hred : handleClaim s req o = executeClaim s req o ur.pending := by
              simp [handleClaim, hd, hf, ha, ha0, hp]
            rw [hred]
            exact executeClaim_acts s req o ur.pending
          · by_cases hgt : a > ur.pending
            · left; simp [handleClaim, hd, hf, ha, ha0, hgt, hp]
            · right
              refine ⟨a, ?_⟩
              have hred : handleClaim s req o = executeClaim s req o a := by
                simp [handleClaim, hd, hf, ha, ha0, hgt, hp]
              rw [hred]
              exact executeClaim_acts s req o a

/-- C9 counterexample: a fully successful run (attestation complete,
reply 200) still submits the approval transaction before the burn - the
approve call is made unconditionally, with no allowance ever read, so an
already-sufficient allowance does not suppress it. -/
theorem c9_counterexample :
    (handleClaim sFix reqFix oComplete).1.statusCode = 200 ∧
    (handleClaim sFix reqFix oComplete).2.2 =
      [ChainAction.approve usdcEthereum tokenMessengerAddr 5,
       ChainAction.depositForBurn 5 6 "p1" usdcEthereum] := by
  refine ⟨by decide, by decide⟩
